import Mathlib

/-!
Verification of the lambda-monitoring repository
(`monitor_lambda_runs.py`, `format_request_events.py`).

The Python source is shallowly embedded: log events become a structure with
the dictionary's optional keys as `Option` fields, the analyzer's loop
becomes a fold, assertion failures become `Except.error` values carrying the
specific assertion that fired, and the formatter's string manipulation is
done on `List Char` (the data of a `String`).
-/

/-- The `extractedFields` mapping of a log-subscription event; the `type` and
`requestId` keys may each be absent. -/
structure ExtractedFields where
  type : Option String
  requestId : Option String
deriving DecidableEq

/-- One CloudWatch log event, as the Python dictionaries used by the source:
`timestamp` (epoch milliseconds), optional `message`, optional
`extractedFields`. -/
structure LogEvent where
  timestamp : Int
  message : Option String
  extractedFields : Option ExtractedFields
deriving DecidableEq

/-- Boolean prefix test on character lists, the model of Python's
`str.startswith`. -/
def startsWithML : List Char → List Char → Bool
  | _, [] => true
  | [], _ :: _ => false
  | c :: cs, d :: ds => c == d && startsWithML cs ds

/-- The distinct assertion failures `analyze_run_events` can raise. -/
inductive AnalyzeError where
  /-- Assertion `assert len(events) > 0`. -/
  | emptyInput : AnalyzeError
  /-- Assertion `assert startts > 0`. -/
  | missingStart : AnalyzeError
  /-- Assertion `assert endts > 0`. -/
  | missingEnd : AnalyzeError
deriving DecidableEq

/-- The mutable locals of `analyze_run_events`' loop
(`startts`, `endts`, `errors`, `warnings`). -/
structure AnalyzeState where
  startts : Int
  endts : Int
  errors : Nat
  warnings : Nat
deriving DecidableEq

/-- The dictionary returned by `analyze_run_events`:
`{'start': ..., 'end': ..., 'duration': ..., 'errors': ..., 'warnings': ...}`
(`end` is a Lean keyword, hence `startTs`/`endTs`). -/
structure RunInfo where
  startTs : Int
  endTs : Int
  duration : Int
  errors : Nat
  warnings : Nat
deriving DecidableEq

/-- An event whose message starts with `START` (sets `startts`). -/
def isStartEvent (e : LogEvent) : Bool :=
  match e.message with
  | some m => startsWithML m.data "START".data
  | none => false

/-- An event whose message starts with `END` (sets `endts`). -/
def isEndEvent (e : LogEvent) : Bool :=
  match e.message with
  | some m => startsWithML m.data "END".data
  | none => false

/-- An event whose message starts with `[ERROR]` (increments `errors`). -/
def isErrorEvent (e : LogEvent) : Bool :=
  match e.message with
  | some m => startsWithML m.data "[ERROR]".data
  | none => false

/-- An event whose message starts with `[WARNING]` (increments `warnings`). -/
def isWarningEvent (e : LogEvent) : Bool :=
  match e.message with
  | some m => startsWithML m.data "[WARNING]".data
  | none => false

/-- The body of `analyze_run_events`' `for` loop: skip events without a
`message`, otherwise run the `startswith` `if`/`elif` chain. -/
def analyzeStep (st : AnalyzeState) (e : LogEvent) : AnalyzeState :=
  match e.message with
  | none => st
  | some m =>
    if startsWithML m.data "START".data then
      ⟨e.timestamp, st.endts, st.errors, st.warnings⟩
    else if startsWithML m.data "END".data then
      ⟨st.startts, e.timestamp, st.errors, st.warnings⟩
    else if startsWithML m.data "[ERROR]".data then
      ⟨st.startts, st.endts, st.errors + 1, st.warnings⟩
    else if startsWithML m.data "[WARNING]".data then
      ⟨st.startts, st.endts, st.errors, st.warnings + 1⟩
    else st

/-- Model of `analyze_run_events(requestId, events, context)` from
`monitor_lambda_runs.py` (the unused `requestId`/`context` parameters only
feed assertion text and are dropped): assert the event list is non-empty,
fold the `startswith` chain over it starting from all-zero locals, assert
`startts > 0` and then `endts > 0`, and return the summary dictionary with
`duration = endts - startts`. -/
def analyze_run_events (events : List LogEvent) : Except AnalyzeError RunInfo :=
  if events.length = 0 then .error .emptyInput
  else
    let st := events.foldl analyzeStep ⟨0, 0, 0, 0⟩
    if st.startts ≤ 0 then .error .missingStart
    else if st.endts ≤ 0 then .error .missingEnd
    else .ok ⟨st.startts, st.endts, st.endts - st.startts, st.errors, st.warnings⟩

/-- Timestamp of the last event of a list, or the default `d` for `[]`;
describes the value a "last assignment wins" loop variable ends with. -/
def lastTs : List LogEvent → Int → Int
  | [], d => d
  | e :: es, _ => lastTs es e.timestamp

/-- The distinct assertion failures `get_request_ids` can raise. -/
inductive ExtractError where
  /-- Assertion `assert len(ids) > 0`. -/
  | emptyResult : ExtractError
  /-- Assertion `assert len(ids) == len(set(ids))`. -/
  | duplicateId : ExtractError
deriving DecidableEq

/-- The `for` loop of `get_request_ids`: collect, in event order, the
`requestId` field of every event that has `extractedFields` with
`type == 'END'` and a `requestId` entry. -/
def collect_end_ids : List LogEvent → List String
  | [] => []
  | e :: es =>
    match e.extractedFields with
    | some fields =>
      match fields.type with
      | some t =>
        if t = "END" then
          match fields.requestId with
          | some r => r :: collect_end_ids es
          | none => collect_end_ids es
        else collect_end_ids es
      | none => collect_end_ids es
    | none => collect_end_ids es

/-- Deduplication keeping one copy of each element; its length is the
cardinality of Python's `set(ids)`. -/
def dedup : List String → List String
  | [] => []
  | x :: xs => if x ∈ dedup xs then dedup xs else x :: dedup xs

/-- Model of `get_request_ids(events, context)` from `monitor_lambda_runs.py`:
collect the request ids of `END`-typed events, assert at least one was
found, assert they are pairwise distinct (`len(ids) == len(set(ids))`), and
return them. -/
def get_request_ids (events : List LogEvent) : Except ExtractError (List String) :=
  let ids := collect_end_ids events
  if ids.length = 0 then .error .emptyResult
  else if ids.length = (dedup ids).length then .ok ids
  else .error .duplicateId

/-- An event carrying `extractedFields` whose `type` equals `END` ("End-typed"
in the specification's words). -/
def isEndTyped (e : LogEvent) : Bool :=
  match e.extractedFields with
  | some fields => fields.type = some "END"
  | none => false

/-- Python's `\s` character class restricted to ASCII, as used by the
formatter's regular expression. -/
def isPySpace (c : Char) : Bool :=
  c == ' ' || c == '\t' || c == '\n' || c == '\r' || c == '\x0b' || c == '\x0c'

/-- The `[A-Z]` character class of the formatter's regular expression. -/
def isUpperAZ (c : Char) : Bool :=
  'A' ≤ c && c ≤ 'Z'

/-- Left-pad the decimal rendering of `n` with zeros to the given width,
as `strftime`'s fixed-width numeric fields do. -/
def padZeros (width : Nat) (n : Nat) : String :=
  let s := toString n
  String.mk (List.replicate (width - s.length) '0') ++ s

/-- The time-of-day rendering
`datetime.datetime.fromtimestamp(timestamp / 1000).strftime('%H:%M:%S')`,
with the system time zone taken to be UTC (the rendering is documented as
time-zone dependent; floor division mirrors `fromtimestamp` on the real
quotient). -/
def formatTime (ms : Int) : String :=
  let s := ((ms.fdiv 1000).emod 86400).toNat
  padZeros 2 (s / 3600) ++ ":" ++ padZeros 2 (s / 60 % 60) ++ ":" ++ padZeros 2 (s % 60)

/-- The anchored match `re.match(r"(?s)\[([A-Z]+)\]\s+\S+\s+\S+\s+(.+)", message)`,
returning `(group 1, group 2)` on success.  Since `\s` and `\S` are disjoint,
every greedy quantifier's extent is forced except the final `\s+`, which on a
message ending in its second token plus trailing whitespace backtracks by one
character so that `(.+)` can match that last whitespace character; with only
one trailing whitespace character no backtracking succeeds and the match
fails. -/
def tryTagMatch (msg : List Char) : Option (List Char × List Char) :=
  match msg with
  | '[' :: r0 =>
    let tag := r0.takeWhile isUpperAZ
    if tag.isEmpty then none
    else
      match r0.dropWhile isUpperAZ with
      | ']' :: r2 =>
        let w1 := r2.takeWhile isPySpace
        let r3 := r2.dropWhile isPySpace
        if w1.isEmpty then none
        else
          let t1 := r3.takeWhile (fun c => !(isPySpace c))
          let r4 := r3.dropWhile (fun c => !(isPySpace c))
          if t1.isEmpty then none
          else
            let w2 := r4.takeWhile isPySpace
            let r5 := r4.dropWhile isPySpace
            if w2.isEmpty then none
            else
              let t2 := r5.takeWhile (fun c => !(isPySpace c))
              let r6 := r5.dropWhile (fun c => !(isPySpace c))
              if t2.isEmpty then none
              else
                let w3 := r6.takeWhile isPySpace
                let r7 := r6.dropWhile isPySpace
                if w3.isEmpty then none
                else
                  match r7 with
                  | [] =>
                    match w3.getLast? with
                    | some c => if 2 ≤ w3.length then some (tag, [c]) else none
                    | none => none
                  | c :: cs => some (tag, c :: cs)
      | _ => none
  | _ => none

/-- Python's `'%-7s' % s`: left-justify to width 7. -/
def padTo7 (s : List Char) : List Char :=
  s ++ List.replicate (7 - s.length) ' '

/-- The formatter's trailing-newline fixup:
`if not result.endswith('\n'): result = result + '\n'`. -/
def ensureNL (l : List Char) : List Char :=
  if l.getLast? = some '\n' then l else l ++ ['\n']

/-- Model of `format_log_event(event)` from `format_request_events.py`, on the event's
timestamp and message characters: render the time of day, then dispatch on
the message — `START`/`END` markers are padded to width 7 and given a
newline, `REPORT` renders as the empty string, a message matching the
bracketed-tag pattern renders time, padded tag and captured detail, and any
other message is appended verbatim; the last two cases gain a trailing
newline when missing. -/
def formatLogEventCore (ts : Int) (msg : List Char) : List Char :=
  let time := (formatTime ts).data
  if startsWithML msg "START".data then time ++ (" START  \n").data
  else if startsWithML msg "END".data then time ++ (" END    \n").data
  else if startsWithML msg "REPORT".data then []
  else
    match tryTagMatch msg with
    | some (tag, detail) => ensureNL (time ++ ' ' :: padTo7 tag ++ ' ' :: detail)
    | none => ensureNL (time ++ ' ' :: msg)

/-- Model of `format_log_event` on a `LogEvent`; an event without a `message` key makes
the source raise `KeyError`, modelled as `none`. -/
def format_log_event (e : LogEvent) : Option String :=
  match e.message with
  | none => none
  | some m => some (String.mk (formatLogEventCore e.timestamp m.data))

/-- The handler context relevant to the formatter: `display_name` and
`function_name`. -/
structure NotificationContext where
  display_name : String
  function_name : String

/-- The info dictionary handed to the formatter by `process_lambda_run`:
the analyzer's summary extended with `requestId` and the raw `events`. -/
structure RunReport where
  startTs : Int
  endTs : Int
  duration : Int
  errors : Nat
  warnings : Nat
  requestId : String
  events : List LogEvent

/-- Model of `create_message_subject(info, context)` from `format_request_events.py`. -/
def create_message_subject (info : RunReport) (ctx : NotificationContext) : String :=
  let base := ctx.display_name ++ " request completed"
  if 0 < info.errors then base ++ " with ERRORS!"
  else if 0 < info.warnings then base ++ " with WARNINGS!"
  else base

/-- Gregorian date (year, month, day) for a day count relative to 1970-01-01
(the standard civil-from-days conversion, for `datetime.fromtimestamp`). -/
def civilFromDays (z0 : Int) : Int × Nat × Nat :=
  let z := z0 + 719468
  let era := z.fdiv 146097
  let doe := (z.emod 146097).toNat
  let yoe := (doe - doe / 1460 + doe / 36524 - doe / 146096) / 365
  let doy := doe - (365 * yoe + yoe / 4 - yoe / 100)
  let mp := (5 * doy + 2) / 153
  let d := doy - (153 * mp + 2) / 5 + 1
  let m := if mp < 10 then mp + 3 else mp - 9
  ((yoe : Int) + era * 400 + (if m ≤ 2 then 1 else 0), m, d)

/-- Rendering `str(datetime.datetime.fromtimestamp(ms / 1000))` with the system time
zone taken to be UTC: `YYYY-MM-DD HH:MM:SS`, plus `.ffffff` microseconds when
they are nonzero. -/
def formatStartedTs (ms : Int) : String :=
  let secs := ms.fdiv 1000
  let micros := ((ms.emod 1000) * 1000).toNat
  let sod := (secs.emod 86400).toNat
  let ymd := civilFromDays (secs.fdiv 86400)
  (if ymd.1 < 0 then toString ymd.1 else padZeros 4 ymd.1.toNat)
    ++ "-" ++ padZeros 2 ymd.2.1 ++ "-" ++ padZeros 2 ymd.2.2
    ++ " " ++ padZeros 2 (sod / 3600) ++ ":" ++ padZeros 2 (sod / 60 % 60)
    ++ ":" ++ padZeros 2 (sod % 60)
    ++ (if micros = 0 then "" else "." ++ padZeros 6 micros)

/-- Rendering `'%f' % datetime.timedelta(milliseconds=ms).total_seconds()`: the
millisecond count as seconds with six decimal places (exact decimal
arithmetic; double rounding in the source can only differ for astronomically
large durations). -/
def formatDurationSeconds (ms : Int) : String :=
  (if ms < 0 then "-" else "")
    ++ toString (ms.natAbs / 1000) ++ "." ++ padZeros 3 (ms.natAbs % 1000) ++ "000"

/-- Model of `''.join(map(format_log_event, events))`; `none` (a raised `KeyError`)
propagates. -/
def joinFormatted : List LogEvent → Option String
  | [] => some ""
  | e :: es =>
    match format_log_event e, joinFormatted es with
    | some s, some rest => some (s ++ rest)
    | _, _ => none

/-- Model of `create_message_body(info, context)` from `format_request_events.py`:
the fixed header, counts, the joined per-event renderings, and the footer. -/
def create_message_body (info : RunReport) (ctx : NotificationContext) : Option String :=
  match joinFormatted info.events with
  | none => none
  | some eventLog => some
      ("Execution results for " ++ ctx.display_name ++ "\n\n"
        ++ toString info.errors ++ " errors\n"
        ++ toString info.warnings ++ " warnings\n"
        ++ "\nExecution Log\n\n"
        ++ eventLog
        ++ "\nLambda Function: " ++ ctx.function_name ++ "\n"
        ++ "Request ID: " ++ info.requestId ++ "\n"
        ++ "Started: " ++ formatStartedTs info.startTs ++ "\n"
        ++ "Duration: " ++ formatDurationSeconds info.duration ++ " seconds")

/-! ### Generic helper lemmas -/

theorem startsWithML_head_ne {m : List Char} {c d : Char} {cs ds : List Char}
    (hcd : c ≠ d) (h : startsWithML m (c :: cs) = true) :
    startsWithML m (d :: ds) = false := by
  cases m with
  | nil => simp [startsWithML] at h
  | cons x xs =>
    simp only [startsWithML, Bool.and_eq_true, beq_iff_eq] at h
    obtain ⟨rfl, -⟩ := h
    simp [startsWithML, hcd]

theorem startsWithML_head2_ne {m : List Char} {c c2 d2 : Char} {cs ds : List Char}
    (h2 : c2 ≠ d2) (h : startsWithML m (c :: c2 :: cs) = true) :
    startsWithML m (c :: d2 :: ds) = false := by
  cases m with
  | nil => simp [startsWithML] at h
  | cons x xs =>
    cases xs with
    | nil => simp [startsWithML] at h
    | cons x2 xs2 =>
      simp only [startsWithML, Bool.and_eq_true, beq_iff_eq] at h
      obtain ⟨rfl, rfl, -⟩ := h
      simp [startsWithML, h2]

theorem takeWhile_all_append {p : Char → Bool} (xs : List Char) (y : Char) (ys : List Char)
    (hxs : ∀ a ∈ xs, p a = true) (hy : p y = false) :
    (xs ++ y :: ys).takeWhile p = xs := by
  induction xs with
  | nil => simp [List.takeWhile_cons, hy]
  | cons a xs ih =>
    have ha : p a = true := hxs a (by simp)
    simp [List.takeWhile_cons, ha, ih fun b hb => hxs b (by simp [hb])]

theorem dropWhile_all_append {p : Char → Bool} (xs : List Char) (y : Char) (ys : List Char)
    (hxs : ∀ a ∈ xs, p a = true) (hy : p y = false) :
    (xs ++ y :: ys).dropWhile p = y :: ys := by
  induction xs with
  | nil => simp [List.dropWhile_cons, hy]
  | cons a xs ih =>
    have ha : p a = true := hxs a (by simp)
    simp [List.dropWhile_cons, ha, ih fun b hb => hxs b (by simp [hb])]

theorem getLast?_append_ne_nil {l1 l2 : List Char} (h : l2 ≠ []) :
    (l1 ++ l2).getLast? = l2.getLast? :=
  List.getLast?_append_of_ne_nil l1 h

/-! ### Analyzer fold lemmas -/

theorem analyzeStep_startts (st : AnalyzeState) (e : LogEvent) :
    (analyzeStep st e).startts = if isStartEvent e then e.timestamp else st.startts := by
  rcases e with ⟨ts, msg, fl⟩
  cases msg with
  | none => simp [analyzeStep, isStartEvent]
  | some m =>
    simp only [analyzeStep, isStartEvent]
    by_cases h : startsWithML m.data "START".data = true
    · simp [h]
    · simp only [Bool.not_eq_true] at h
      simp only [h, Bool.false_eq_true, if_false]
      split
      · rfl
      · split
        · rfl
        · split <;> rfl

theorem analyzeStep_endts (st : AnalyzeState) (e : LogEvent) :
    (analyzeStep st e).endts = if isEndEvent e then e.timestamp else st.endts := by
  rcases e with ⟨ts, msg, fl⟩
  cases msg with
  | none => simp [analyzeStep, isEndEvent]
  | some m =>
    simp only [analyzeStep, isEndEvent]
    by_cases he : startsWithML m.data "END".data = true
    · have hs : startsWithML m.data "START".data = false := by
        have : "END".data = 'E' :: "ND".data := rfl
        rw [this] at he
        exact startsWithML_head_ne (by decide) he
      simp [hs, he]
    · simp only [Bool.not_eq_true] at he
      simp only [he, Bool.false_eq_true, if_false]
      split
      · rfl
      · split
        · rfl
        · split <;> rfl

theorem analyzeStep_errors (st : AnalyzeState) (e : LogEvent) :
    (analyzeStep st e).errors = if isErrorEvent e then st.errors + 1 else st.errors := by
  rcases e with ⟨ts, msg, fl⟩
  cases msg with
  | none => simp [analyzeStep, isErrorEvent]
  | some m =>
    simp only [analyzeStep, isErrorEvent]
    by_cases herr : startsWithML m.data "[ERROR]".data = true
    · have hs : startsWithML m.data "START".data = false := by
        have : "[ERROR]".data = '[' :: "ERROR]".data := rfl
        rw [this] at herr
        exact startsWithML_head_ne (by decide) herr
      have he : startsWithML m.data "END".data = false := by
        have : "[ERROR]".data = '[' :: "ERROR]".data := rfl
        rw [this] at herr
        exact startsWithML_head_ne (by decide) herr
      simp [hs, he, herr]
    · simp only [Bool.not_eq_true] at herr
      simp only [herr, Bool.false_eq_true, if_false]
      split
      · rfl
      · split
        · rfl
        · split <;> rfl

theorem analyzeStep_warnings (st : AnalyzeState) (e : LogEvent) :
    (analyzeStep st e).warnings = if isWarningEvent e then st.warnings + 1 else st.warnings := by
  rcases e with ⟨ts, msg, fl⟩
  cases msg with
  | none => simp [analyzeStep, isWarningEvent]
  | some m =>
    simp only [analyzeStep, isWarningEvent]
    by_cases hw : startsWithML m.data "[WARNING]".data = true
    · have hs : startsWithML m.data "START".data = false := by
        have : "[WARNING]".data = '[' :: "WARNING]".data := rfl
        rw [this] at hw
        exact startsWithML_head_ne (by decide) hw
      have he : startsWithML m.data "END".data = false := by
        have : "[WARNING]".data = '[' :: "WARNING]".data := rfl
        rw [this] at hw
        exact startsWithML_head_ne (by decide) hw
      have herr : startsWithML m.data "[ERROR]".data = false := by
        have : "[WARNING]".data = '[' :: 'W' :: "ARNING]".data := rfl
        rw [this] at hw
        exact startsWithML_head2_ne (by decide) hw
      simp [hs, he, herr, hw]
    · simp only [Bool.not_eq_true] at hw
      simp only [hw, Bool.false_eq_true, if_false]
      split
      · rfl
      · split
        · rfl
        · split <;> rfl

theorem foldl_analyzeStep_startts (events : List LogEvent) (st : AnalyzeState) :
    (events.foldl analyzeStep st).startts = lastTs (events.filter isStartEvent) st.startts := by
  induction events generalizing st with
  | nil => rfl
  | cons e es ih =>
    rw [List.foldl_cons, ih]
    by_cases h : isStartEvent e
    · rw [List.filter_cons_of_pos h]
      show lastTs _ _ = lastTs _ e.timestamp
      rw [analyzeStep_startts, if_pos h]
    · rw [List.filter_cons_of_neg h, analyzeStep_startts, if_neg h]

theorem foldl_analyzeStep_endts (events : List LogEvent) (st : AnalyzeState) :
    (events.foldl analyzeStep st).endts = lastTs (events.filter isEndEvent) st.endts := by
  induction events generalizing st with
  | nil => rfl
  | cons e es ih =>
    rw [List.foldl_cons, ih]
    by_cases h : isEndEvent e
    · rw [List.filter_cons_of_pos h]
      show lastTs _ _ = lastTs _ e.timestamp
      rw [analyzeStep_endts, if_pos h]
    · rw [List.filter_cons_of_neg h, analyzeStep_endts, if_neg h]

theorem foldl_analyzeStep_errors (events : List LogEvent) (st : AnalyzeState) :
    (events.foldl analyzeStep st).errors = st.errors + (events.filter isErrorEvent).length := by
  induction events generalizing st with
  | nil => simp
  | cons e es ih =>
    rw [List.foldl_cons, ih]
    by_cases h : isErrorEvent e
    · rw [List.filter_cons_of_pos h, analyzeStep_errors, if_pos h]
      simp
      omega
    · rw [List.filter_cons_of_neg h, analyzeStep_errors, if_neg h]

theorem foldl_analyzeStep_warnings (events : List LogEvent) (st : AnalyzeState) :
    (events.foldl analyzeStep st).warnings = st.warnings + (events.filter isWarningEvent).length := by
  induction events generalizing st with
  | nil => simp
  | cons e es ih =>
    rw [List.foldl_cons, ih]
    by_cases h : isWarningEvent e
    · rw [List.filter_cons_of_pos h, analyzeStep_warnings, if_pos h]
      simp
      omega
    · rw [List.filter_cons_of_neg h, analyzeStep_warnings, if_neg h]

theorem lastTs_pos (l : List LogEvent) (hpos : ∀ e ∈ l, 0 < e.timestamp) (hne : l ≠ [])
    (d : Int) : 0 < lastTs l d := by
  induction l generalizing d with
  | nil => exact absurd rfl hne
  | cons e es ih =>
    show 0 < lastTs es e.timestamp
    cases es with
    | nil => exact hpos e (by simp)
    | cons f fs =>
      exact ih (fun x hx => hpos x (by simp [List.mem_cons] at hx ⊢; tauto)) (by simp) _

/-! ### Claims about the Run Analyzer -/

/-- C1 (counterexample): the claim says analysis fails whenever the number of
`START`-prefixed messages differs from one, but an event set with two `START`
events and one `END` event is analyzed successfully (the later `START`'s
timestamp wins). -/
theorem c1_counterexample :
    (([⟨1, some "START", none⟩, ⟨2, some "START", none⟩,
        ⟨3, some "END", none⟩] : List LogEvent).filter isStartEvent).length ≠ 1
    ∧ analyze_run_events
        [⟨1, some "START", none⟩, ⟨2, some "START", none⟩, ⟨3, some "END", none⟩]
        = .ok ⟨2, 3, 1, 0, 0⟩ := by
  constructor
  · decide
  · rfl

/-- C1 (amended): for events with positive timestamps, analysis fails if and
only if the event sequence is empty, contains no event whose message starts
with `START`, or contains no event whose message starts with `END`; the
"exactly one" of the claim must be weakened to "at least one", since repeated
markers are accepted with the last occurrence winning. -/
theorem c1_amended_failure_iff (events : List LogEvent)
    (hpos : ∀ e ∈ events, 0 < e.timestamp) :
    (∃ err, analyze_run_events events = .error err) ↔
      (events = [] ∨ events.filter isStartEvent = []
        ∨ events.filter isEndEvent = []) := by
  rcases Decidable.em (events = []) with hnil | hnil
  · subst hnil
    exact ⟨fun _ => Or.inl rfl, fun _ => ⟨.emptyInput, rfl⟩⟩
  · have hlen : ¬ events.length = 0 := by
      simpa [List.length_eq_zero] using hnil
    have hst := foldl_analyzeStep_startts events ⟨0, 0, 0, 0⟩
    have hen := foldl_analyzeStep_endts events ⟨0, 0, 0, 0⟩
    simp only [analyze_run_events, if_neg hlen]
    constructor
    · rintro ⟨err, herr⟩
      by_contra hcon
      push_neg at hcon
      obtain ⟨-, hsne, hene⟩ := hcon
      have h1 : 0 < (events.foldl analyzeStep ⟨0, 0, 0, 0⟩).startts := by
        rw [hst]
        exact lastTs_pos _ (fun x hx => hpos x (List.mem_of_mem_filter hx)) hsne 0
      have h2 : 0 < (events.foldl analyzeStep ⟨0, 0, 0, 0⟩).endts := by
        rw [hen]
        exact lastTs_pos _ (fun x hx => hpos x (List.mem_of_mem_filter hx)) hene 0
      rw [if_neg (by omega), if_neg (by omega)] at herr
      exact Except.noConfusion herr
    · rintro (rfl | hs | he)
      · exact absurd rfl hnil
      · refine ⟨.missingStart, ?_⟩
        have h0 : (events.foldl analyzeStep ⟨0, 0, 0, 0⟩).startts = 0 := by
          rw [hst, hs]; rfl
        rw [if_pos (by omega)]
      · rcases Decidable.em (events.filter isStartEvent = []) with hsnil | hsnil
        · refine ⟨.missingStart, ?_⟩
          have h0 : (events.foldl analyzeStep ⟨0, 0, 0, 0⟩).startts = 0 := by
            rw [hst, hsnil]; rfl
          rw [if_pos (by omega)]
        · refine ⟨.missingEnd, ?_⟩
          have h1 : 0 < (events.foldl analyzeStep ⟨0, 0, 0, 0⟩).startts := by
            rw [hst]
            exact lastTs_pos _ (fun x hx => hpos x (List.mem_of_mem_filter hx)) hsnil 0
          have h2 : (events.foldl analyzeStep ⟨0, 0, 0, 0⟩).endts = 0 := by
            rw [hen, he]; rfl
          rw [if_neg (by omega), if_pos (by omega)]

/-- Witness for the amended C1 at a concrete input: one `START` event with a
positive timestamp and no `END` event, so analysis fails. -/
theorem c1_amended_witness :
    (∃ err, analyze_run_events [⟨5, some "START", none⟩] = .error err) ↔
      (([⟨5, some "START", none⟩] : List LogEvent) = []
        ∨ ([(⟨5, some "START", none⟩ : LogEvent)].filter isStartEvent = []
        ∨ [(⟨5, some "START", none⟩ : LogEvent)].filter isEndEvent = [])) :=
  c1_amended_failure_iff [⟨5, some "START", none⟩] (by decide)

/-- C2: when exactly one event's message starts with `START` and exactly one
event's message starts with `END`, any summary the analyzer returns has
duration equal to the `END` event's timestamp minus the `START` event's
timestamp (zero when they coincide); with positive marker timestamps the
analyzer indeed succeeds with exactly that summary. -/
theorem c2_duration_difference (events : List LogEvent) (s e : LogEvent)
    (hs : events.filter isStartEvent = [s]) (he : events.filter isEndEvent = [e]) :
    (0 < s.timestamp → 0 < e.timestamp →
      analyze_run_events events
        = .ok ⟨s.timestamp, e.timestamp, e.timestamp - s.timestamp,
            (events.filter isErrorEvent).length,
            (events.filter isWarningEvent).length⟩)
    ∧ (∀ info, analyze_run_events events = .ok info →
        info.duration = e.timestamp - s.timestamp
        ∧ (e.timestamp = s.timestamp → info.duration = 0)) := by
  have hnil : events ≠ [] := by
    intro h
    rw [h] at hs
    exact List.noConfusion hs
  have hlen : ¬ events.length = 0 := by
    simpa [List.length_eq_zero] using hnil
  have hst : (events.foldl analyzeStep ⟨0, 0, 0, 0⟩).startts = s.timestamp := by
    rw [foldl_analyzeStep_startts, hs]; rfl
  have hen : (events.foldl analyzeStep ⟨0, 0, 0, 0⟩).endts = e.timestamp := by
    rw [foldl_analyzeStep_endts, he]; rfl
  have herrs : (events.foldl analyzeStep ⟨0, 0, 0, 0⟩).errors
      = (events.filter isErrorEvent).length := by
    rw [foldl_analyzeStep_errors]
    exact Nat.zero_add _
  have hwarns : (events.foldl analyzeStep ⟨0, 0, 0, 0⟩).warnings
      = (events.filter isWarningEvent).length := by
    rw [foldl_analyzeStep_warnings]
    exact Nat.zero_add _
  constructor
  · intro hp1 hp2
    simp only [analyze_run_events, if_neg hlen]
    rw [if_neg (by omega), if_neg (by omega), hst, hen, herrs, hwarns]
  · intro info hinfo
    simp only [analyze_run_events, if_neg hlen] at hinfo
    split at hinfo
    · exact Except.noConfusion hinfo
    · split at hinfo
      · exact Except.noConfusion hinfo
      · rw [hst, hen, herrs, hwarns] at hinfo
        have hinfo' := (Except.ok.injEq _ _).mp hinfo
        subst hinfo'
        refine ⟨rfl, fun hts => ?_⟩
        show e.timestamp - s.timestamp = 0
        omega

/-- Witness for C2 at a concrete run: `START` at 10 ms and `END` at 25 ms
give duration 15 ms. -/
theorem c2_duration_witness :
    analyze_run_events [⟨10, some "START", none⟩, ⟨25, some "END", none⟩]
      = .ok ⟨10, 25, 15, 0, 0⟩ :=
  (c2_duration_difference [⟨10, some "START", none⟩, ⟨25, some "END", none⟩]
    ⟨10, some "START", none⟩ ⟨25, some "END", none⟩ (by decide) (by decide)).1
    (by decide) (by decide)

/-- C4: the analyzer fails with the empty-input error on `[]`, with the
missing-Start error on a non-empty sequence with no `START`-prefixed message,
and with the missing-End error on a non-empty sequence that has a
`START`-prefixed message but no `END`-prefixed one (the three failure
conditions are checked in this order; timestamps are assumed positive, the
zero-timestamp edge being the subject of C9). -/
theorem c4_specific_errors (events : List LogEvent)
    (hpos : ∀ e ∈ events, 0 < e.timestamp) :
    (events = [] → analyze_run_events events = .error .emptyInput)
    ∧ (events ≠ [] → events.filter isStartEvent = [] →
        analyze_run_events events = .error .missingStart)
    ∧ (events ≠ [] → events.filter isStartEvent ≠ [] →
        events.filter isEndEvent = [] →
        analyze_run_events events = .error .missingEnd) := by
  refine ⟨fun h => by subst h; rfl, fun hnil hs => ?_, fun hnil hs he => ?_⟩
  · have hlen : ¬ events.length = 0 := by
      simpa [List.length_eq_zero] using hnil
    have h0 : (events.foldl analyzeStep ⟨0, 0, 0, 0⟩).startts = 0 := by
      rw [foldl_analyzeStep_startts, hs]; rfl
    simp only [analyze_run_events, if_neg hlen]
    rw [if_pos (by omega)]
  · have hlen : ¬ events.length = 0 := by
      simpa [List.length_eq_zero] using hnil
    have h1 : 0 < (events.foldl analyzeStep ⟨0, 0, 0, 0⟩).startts := by
      rw [foldl_analyzeStep_startts]
      exact lastTs_pos _ (fun x hx => hpos x (List.mem_of_mem_filter hx)) hs 0
    have h2 : (events.foldl analyzeStep ⟨0, 0, 0, 0⟩).endts = 0 := by
      rw [foldl_analyzeStep_endts, he]; rfl
    simp only [analyze_run_events, if_neg hlen]
    rw [if_neg (by omega), if_pos (by omega)]

/-- Witness for C4: each of the three failure modes at a concrete input. -/
theorem c4_specific_errors_witness :
    analyze_run_events [] = .error .emptyInput
    ∧ analyze_run_events [⟨7, some "hello", none⟩] = .error .missingStart
    ∧ analyze_run_events [⟨7, some "START", none⟩] = .error .missingEnd :=
  ⟨(c4_specific_errors [] (by decide)).1 rfl,
   (c4_specific_errors [⟨7, some "hello", none⟩] (by decide)).2.1
     (by decide) (by decide),
   (c4_specific_errors [⟨7, some "START", none⟩] (by decide)).2.2
     (by decide) (by decide) (by decide)⟩

/-- C9: the analyzer uses `0` as the unset-timestamp sentinel, so a run whose
unique `START` event carries timestamp exactly 0 fails with the missing-Start
error, and a run with a positively-timestamped unique `START` whose unique
`END` event carries timestamp 0 fails with the missing-End error, even though
the markers are present. -/
theorem c9_zero_timestamp_sentinel (events : List LogEvent) :
    (∀ s, events.filter isStartEvent = [s] → s.timestamp = 0 →
        analyze_run_events events = .error .missingStart)
    ∧ (∀ s e, events.filter isStartEvent = [s] → 0 < s.timestamp →
        events.filter isEndEvent = [e] → e.timestamp = 0 →
        analyze_run_events events = .error .missingEnd) := by
  constructor
  · intro s hs hts
    have hnil : events ≠ [] := by
      intro h
      rw [h] at hs
      exact List.noConfusion hs
    have hlen : ¬ events.length = 0 := by
      simpa [List.length_eq_zero] using hnil
    have h0 : (events.foldl analyzeStep ⟨0, 0, 0, 0⟩).startts = 0 := by
      rw [foldl_analyzeStep_startts, hs]
      exact hts
    simp only [analyze_run_events, if_neg hlen]
    rw [if_pos (by omega)]
  · intro s e hs hpos he hte
    have hnil : events ≠ [] := by
      intro h
      rw [h] at hs
      exact List.noConfusion hs
    have hlen : ¬ events.length = 0 := by
      simpa [List.length_eq_zero] using hnil
    have h1 : (events.foldl analyzeStep ⟨0, 0, 0, 0⟩).startts = s.timestamp := by
      rw [foldl_analyzeStep_startts, hs]; rfl
    have h2 : (events.foldl analyzeStep ⟨0, 0, 0, 0⟩).endts = 0 := by
      rw [foldl_analyzeStep_endts, he]
      exact hte
    simp only [analyze_run_events, if_neg hlen]
    rw [if_neg (by omega), if_pos (by omega)]

/-- Witness for C9: a zero-timestamp `START` alone fails missing-Start, and a
zero-timestamp `END` after a positive `START` fails missing-End. -/
theorem c9_zero_timestamp_witness :
    analyze_run_events [⟨0, some "START", none⟩] = .error .missingStart
    ∧ analyze_run_events [⟨1, some "START", none⟩, ⟨0, some "END", none⟩]
        = .error .missingEnd :=
  ⟨(c9_zero_timestamp_sentinel [⟨0, some "START", none⟩]).1
     ⟨0, some "START", none⟩ (by decide) rfl,
   (c9_zero_timestamp_sentinel [⟨1, some "START", none⟩, ⟨0, some "END", none⟩]).2
     ⟨1, some "START", none⟩ ⟨0, some "END", none⟩ (by decide) (by decide)
     (by decide) rfl⟩

/-- C7 (counterexample): the claim asserts every produced summary has
non-negative duration, but an `END` event whose timestamp precedes the
`START` event's produces a summary with duration `-50`. -/
theorem c7_counterexample :
    analyze_run_events [⟨100, some "START", none⟩, ⟨50, some "END", none⟩]
      = .ok ⟨100, 50, -50, 0, 0⟩
    ∧ ¬ (0 ≤ (-50 : Int)) := ⟨rfl, by decide⟩

/-- C7 (amended): every summary the analyzer returns has non-negative error
and warning counts and positive start/end timestamps, and its duration equals
`endTs - startTs`; the duration is non-negative exactly when the recorded
end timestamp is at least the start timestamp, which the analyzer does not
enforce. -/
theorem c7_amended_summary_invariants (events : List LogEvent) (info : RunInfo)
    (h : analyze_run_events events = .ok info) :
    info.duration = info.endTs - info.startTs
    ∧ 0 < info.startTs ∧ 0 < info.endTs
    ∧ 0 ≤ (info.errors : Int) ∧ 0 ≤ (info.warnings : Int)
    ∧ (0 ≤ info.duration ↔ info.startTs ≤ info.endTs) := by
  simp only [analyze_run_events] at h
  split at h
  · exact Except.noConfusion h
  · split at h
    · exact Except.noConfusion h
    · split at h
      · exact Except.noConfusion h
      · rename_i hstart hend
        have h' := (Except.ok.injEq _ _).mp h
        subst h'
        dsimp only
        refine ⟨rfl, by omega, by omega, by positivity, by positivity, by omega⟩

/-- Witness for the amended C7 at a concrete successful run. -/
theorem c7_amended_witness :
    (15 : Int) = 25 - 10
    ∧ (0 : Int) < 10 ∧ (0 : Int) < 25
    ∧ (0 : Int) ≤ ((0 : Nat) : Int) ∧ (0 : Int) ≤ ((0 : Nat) : Int)
    ∧ ((0 : Int) ≤ 15 ↔ (10 : Int) ≤ 25) :=
  c7_amended_summary_invariants
    [⟨10, some "START", none⟩, ⟨25, some "END", none⟩] ⟨10, 25, 15, 0, 0⟩ rfl

/-! ### Claims about the Run Extractor -/

theorem mem_dedup : ∀ (l : List String) (a : String), a ∈ dedup l ↔ a ∈ l := by
  intro l
  induction l with
  | nil => simp [dedup]
  | cons x xs ih =>
    intro a
    rw [dedup]
    by_cases hx : x ∈ dedup xs
    · rw [if_pos hx]
      have hx' : x ∈ xs := (ih x).mp hx
      simp only [List.mem_cons, ih a]
      constructor
      · exact Or.inr
      · rintro (rfl | h)
        · exact hx'
        · exact h
    · rw [if_neg hx]
      simp [ih a]

theorem dedup_length_le : ∀ l : List String, (dedup l).length ≤ l.length := by
  intro l
  induction l with
  | nil => simp [dedup]
  | cons x xs ih =>
    rw [dedup]
    by_cases hx : x ∈ dedup xs
    · rw [if_pos hx]
      exact le_trans ih (by simp)
    · rw [if_neg hx]
      simpa using ih

theorem dedup_length_lt_of_not_nodup :
    ∀ l : List String, ¬ l.Nodup → (dedup l).length < l.length := by
  intro l
  induction l with
  | nil => intro h; exact absurd List.nodup_nil h
  | cons x xs ih =>
    intro h
    rw [List.nodup_cons] at h
    push_neg at h
    rw [dedup]
    by_cases hx : x ∈ dedup xs
    · rw [if_pos hx]
      have := dedup_length_le xs
      simp only [List.length_cons]
      omega
    · rw [if_neg hx]
      have hxs : ¬ xs.Nodup := by
        rcases Decidable.em (x ∈ xs) with hmem | hmem
        · exact absurd ((mem_dedup xs x).mpr hmem) hx
        · exact h hmem
      have := ih hxs
      simp only [List.length_cons]
      omega

theorem collect_end_ids_nil_of_no_endTyped :
    ∀ events : List LogEvent, events.filter isEndTyped = [] →
      collect_end_ids events = [] := by
  intro events h
  rw [List.filter_eq_nil_iff] at h
  induction events with
  | nil => rfl
  | cons e es ih =>
    have he : ¬ isEndTyped e = true := h e (by simp)
    have ih' := ih fun x hx => h x (by simp [hx])
    obtain ⟨ts, msg, fl⟩ := e
    cases fl with
    | none => simpa [collect_end_ids] using ih'
    | some fields =>
      obtain ⟨ftype, frid⟩ := fields
      cases ftype with
      | none => simpa [collect_end_ids] using ih'
      | some t =>
        rcases Decidable.em (t = "END") with rfl | hne
        · exact absurd (by simp [isEndTyped]) he
        · simpa [collect_end_ids, hne] using ih'

/-- C3: the Run Extractor fails with the empty-result error whenever no event
is `END`-typed, fails with the duplicate-id error whenever the request ids
collected from `END`-typed events repeat, and on two `END`-typed events with
ids `A` and `B` returns exactly `["A", "B"]`. -/
theorem c3_extractor_contract :
    (∀ events : List LogEvent, events.filter isEndTyped = [] →
        get_request_ids events = .error .emptyResult)
    ∧ (∀ events : List LogEvent, ¬ (collect_end_ids events).Nodup →
        get_request_ids events = .error .duplicateId)
    ∧ get_request_ids
        [⟨0, none, some ⟨some "END", some "A"⟩⟩, ⟨0, none, some ⟨some "END", some "B"⟩⟩]
        = .ok ["A", "B"] := by
  refine ⟨fun events h => ?_, fun events h => ?_, rfl⟩
  · have hids : collect_end_ids events = [] := collect_end_ids_nil_of_no_endTyped events h
    simp only [get_request_ids, hids]
    rfl
  · have hlt : (dedup (collect_end_ids events)).length < (collect_end_ids events).length :=
      dedup_length_lt_of_not_nodup _ h
    have hne : ¬ (collect_end_ids events).length = 0 := by
      intro h0
      rw [List.length_eq_zero] at h0
      rw [h0] at h
      exact absurd List.nodup_nil h
    simp only [get_request_ids]
    rw [if_neg hne, if_neg (by omega)]

/-- Witness for C3: the two failure parts applied at concrete inputs. -/
theorem c3_extractor_witness :
    get_request_ids ([] : List LogEvent) = .error .emptyResult
    ∧ get_request_ids
        [⟨0, none, some ⟨some "END", some "A"⟩⟩, ⟨0, none, some ⟨some "END", some "A"⟩⟩]
        = .error .duplicateId :=
  ⟨c3_extractor_contract.1 [] rfl,
   c3_extractor_contract.2.1
     [⟨0, none, some ⟨some "END", some "A"⟩⟩, ⟨0, none, some ⟨some "END", some "A"⟩⟩]
     (by decide)⟩

/-! ### Claims about the Report Formatter -/

/-- C6: subject selection is a strict priority order — a positive error count
always yields the ERRORS subject whatever the warning count, a positive
warning count with zero errors yields the WARNINGS subject, and otherwise the
bare completion subject is produced. -/
theorem c6_subject_priority (info : RunReport) (ctx : NotificationContext) :
    (0 < info.errors →
      create_message_subject info ctx
        = ctx.display_name ++ " request completed with ERRORS!")
    ∧ (info.errors = 0 → 0 < info.warnings →
      create_message_subject info ctx
        = ctx.display_name ++ " request completed with WARNINGS!")
    ∧ (info.errors = 0 → info.warnings = 0 →
      create_message_subject info ctx
        = ctx.display_name ++ " request completed") := by
  refine ⟨fun he => ?_, fun he hw => ?_, fun he hw => ?_⟩
  · simp only [create_message_subject, if_pos he]
    rw [String.append_assoc]
    rfl
  · simp only [create_message_subject,
      if_neg (by omega : ¬ 0 < info.errors), if_pos hw]
    rw [String.append_assoc]
    rfl
  · simp only [create_message_subject,
      if_neg (by omega : ¬ 0 < info.errors),
      if_neg (by omega : ¬ 0 < info.warnings)]

/-- Witness for C6: the three subject branches at concrete counts. -/
theorem c6_subject_witness :
    create_message_subject ⟨0, 0, 0, 1, 2, "r", []⟩ ⟨"foo", "fn"⟩
      = "foo" ++ " request completed with ERRORS!"
    ∧ create_message_subject ⟨0, 0, 0, 0, 2, "r", []⟩ ⟨"foo", "fn"⟩
      = "foo" ++ " request completed with WARNINGS!"
    ∧ create_message_subject ⟨0, 0, 0, 0, 0, "r", []⟩ ⟨"foo", "fn"⟩
      = "foo" ++ " request completed" :=
  ⟨(c6_subject_priority ⟨0, 0, 0, 1, 2, "r", []⟩ ⟨"foo", "fn"⟩).1 (by decide),
   (c6_subject_priority ⟨0, 0, 0, 0, 2, "r", []⟩ ⟨"foo", "fn"⟩).2.1 rfl (by decide),
   (c6_subject_priority ⟨0, 0, 0, 0, 0, "r", []⟩ ⟨"foo", "fn"⟩).2.2 rfl rfl⟩

theorem ensureNL_getLast (l : List Char) : (ensureNL l).getLast? = some '\n' := by
  unfold ensureNL
  split
  · next h => exact h
  · next h => rw [getLast?_append_ne_nil (by simp)]; rfl

theorem formatLogEventCore_empty_or_newline (ts : Int) (msg : List Char) :
    formatLogEventCore ts msg = []
    ∨ (formatLogEventCore ts msg).getLast? = some '\n' := by
  simp only [formatLogEventCore]
  split
  · right; rw [getLast?_append_ne_nil (by decide)]; rfl
  · split
    · right; rw [getLast?_append_ne_nil (by decide)]; rfl
    · split
      · left; rfl
      · split
        · right; exact ensureNL_getLast _
        · right; exact ensureNL_getLast _

/-- C10: the rendering of any event that carries a message is either the
empty string or ends with a newline, so joining renderings with no separator
keeps each rendered event on its own line(s). -/
theorem c10_rendering_line_shape (ts : Int) (m : String) (fl : Option ExtractedFields) :
    format_log_event ⟨ts, some m, fl⟩ = some ""
    ∨ ∃ s : String, format_log_event ⟨ts, some m, fl⟩ = some s
        ∧ s.data.getLast? = some '\n' := by
  rcases formatLogEventCore_empty_or_newline ts m.data with h | h
  · left
    show some (String.mk (formatLogEventCore ts m.data)) = some ""
    rw [h]
  · right
    exact ⟨String.mk (formatLogEventCore ts m.data), rfl, h⟩

theorem joinFormatted_skip (e : LogEvent) (hfmt : format_log_event e = some "")
    (es1 es2 : List LogEvent) :
    joinFormatted (es1 ++ e :: es2) = joinFormatted (es1 ++ es2) := by
  induction es1 with
  | nil =>
    show joinFormatted (e :: es2) = joinFormatted es2
    rw [joinFormatted, hfmt]
    cases hj : joinFormatted es2 with
    | none => rfl
    | some r =>
      show some ("" ++ r) = some r
      obtain ⟨rd⟩ := r
      rfl
  | cons a es1 ih =>
    show joinFormatted (a :: (es1 ++ e :: es2)) = joinFormatted (a :: (es1 ++ es2))
    rw [joinFormatted, joinFormatted, ih]

/-- C8: an event whose message starts with `REPORT` renders as the empty
string, and removing such an event from a report's event list leaves the
rendered message body unchanged — it contributes zero characters. -/
theorem c8_report_suppressed (ts : Int) (m : String) (fl : Option ExtractedFields)
    (h : startsWithML m.data "REPORT".data = true) :
    format_log_event ⟨ts, some m, fl⟩ = some ""
    ∧ ∀ (es1 es2 : List LogEvent) (info : RunReport) (ctx : NotificationContext),
        create_message_body
            ⟨info.startTs, info.endTs, info.duration, info.errors, info.warnings,
              info.requestId, es1 ++ ⟨ts, some m, fl⟩ :: es2⟩ ctx
          = create_message_body
            ⟨info.startTs, info.endTs, info.duration, info.errors, info.warnings,
              info.requestId, es1 ++ es2⟩ ctx := by
  have hfmt : format_log_event ⟨ts, some m, fl⟩ = some "" := by
    have hs : startsWithML m.data "START".data = false := by
      have hR : "REPORT".data = 'R' :: "EPORT".data := rfl
      rw [hR] at h
      exact startsWithML_head_ne (by decide) h
    have he : startsWithML m.data "END".data = false := by
      have hR : "REPORT".data = 'R' :: "EPORT".data := rfl
      rw [hR] at h
      exact startsWithML_head_ne (by decide) h
    show some (String.mk (formatLogEventCore ts m.data)) = some ""
    simp [formatLogEventCore, hs, he, h]
  refine ⟨hfmt, fun es1 es2 info ctx => ?_⟩
  simp only [create_message_body]
  rw [joinFormatted_skip _ hfmt]

/-- Witness for C8: a concrete `REPORT` event vanishes from a concrete body. -/
theorem c8_report_witness :
    format_log_event ⟨0, some "REPORT x", none⟩ = some ""
    ∧ create_message_body ⟨1, 2, 1, 0, 0, "r", [⟨0, some "REPORT x", none⟩]⟩ ⟨"d", "f"⟩
        = create_message_body ⟨1, 2, 1, 0, 0, "r", []⟩ ⟨"d", "f"⟩ := by
  have hc := c8_report_suppressed 0 "REPORT x" none (by decide)
  exact ⟨hc.1, hc.2 [] [] ⟨1, 2, 1, 0, 0, "r", []⟩ ⟨"d", "f"⟩⟩

theorem startsWithML_cons_ne {x d : Char} (xs ds : List Char) (h : x ≠ d) :
    startsWithML (x :: xs) (d :: ds) = false := by
  have hb : (x == d) = false := by
    simpa using h
  simp [startsWithML, hb]

theorem takeWhile_all_head (p : Char → Bool) (xs ys : List Char)
    (hxs : ∀ a ∈ xs, p a = true)
    (hy : ∀ b, ys.head? = some b → p b = false) :
    (xs ++ ys).takeWhile p = xs := by
  induction xs with
  | nil =>
    cases ys with
    | nil => rfl
    | cons y ys => simp [List.takeWhile_cons, hy y rfl]
  | cons a xs ih =>
    have ha := hxs a (by simp)
    simp [List.takeWhile_cons, ha, ih fun b hb => hxs b (by simp [hb])]

theorem dropWhile_all_head (p : Char → Bool) (xs ys : List Char)
    (hxs : ∀ a ∈ xs, p a = true)
    (hy : ∀ b, ys.head? = some b → p b = false) :
    (xs ++ ys).dropWhile p = ys := by
  induction xs with
  | nil =>
    cases ys with
    | nil => rfl
    | cons y ys => simp [List.dropWhile_cons, hy y rfl]
  | cons a xs ih =>
    have ha := hxs a (by simp)
    simp [List.dropWhile_cons, ha, ih fun b hb => hxs b (by simp [hb])]

/-- On a message of the canonical shape — bracketed uppercase tag, whitespace,
token, whitespace, token, whitespace, detail beginning with a non-whitespace
character — the embedded regular-expression match captures the tag and the
detail. -/
theorem tryTagMatch_canonical
    (tag w1 t1 w2 t2 w3 drest : List Char) (dc : Char)
    (htagne : tag ≠ []) (htag : ∀ c ∈ tag, isUpperAZ c = true)
    (hw1ne : w1 ≠ []) (hw1 : ∀ c ∈ w1, isPySpace c = true)
    (ht1ne : t1 ≠ []) (ht1 : ∀ c ∈ t1, isPySpace c = false)
    (hw2ne : w2 ≠ []) (hw2 : ∀ c ∈ w2, isPySpace c = true)
    (ht2ne : t2 ≠ []) (ht2 : ∀ c ∈ t2, isPySpace c = false)
    (hw3ne : w3 ≠ []) (hw3 : ∀ c ∈ w3, isPySpace c = true)
    (hdc : isPySpace dc = false) :
    tryTagMatch ('[' :: (tag ++ ']' :: (w1 ++ (t1 ++ (w2 ++ (t2 ++ (w3 ++ dc :: drest)))))))
      = some (tag, dc :: drest) := by
  obtain ⟨a0, tagr, rfl⟩ := List.exists_cons_of_ne_nil htagne
  obtain ⟨s1, w1r, rfl⟩ := List.exists_cons_of_ne_nil hw1ne
  obtain ⟨b1, t1r, rfl⟩ := List.exists_cons_of_ne_nil ht1ne
  obtain ⟨s2, w2r, rfl⟩ := List.exists_cons_of_ne_nil hw2ne
  obtain ⟨b2, t2r, rfl⟩ := List.exists_cons_of_ne_nil ht2ne
  obtain ⟨s3, w3r, rfl⟩ := List.exists_cons_of_ne_nil hw3ne
  have e1 := takeWhile_all_head isUpperAZ (a0 :: tagr)
    (']' :: ((s1 :: w1r) ++ ((b1 :: t1r) ++ ((s2 :: w2r) ++ ((b2 :: t2r) ++ ((s3 :: w3r) ++ dc :: drest))))))
    htag (fun b hb => by rw [List.head?_cons, Option.some.injEq] at hb; subst hb; decide)
  have e2 := dropWhile_all_head isUpperAZ (a0 :: tagr)
    (']' :: ((s1 :: w1r) ++ ((b1 :: t1r) ++ ((s2 :: w2r) ++ ((b2 :: t2r) ++ ((s3 :: w3r) ++ dc :: drest))))))
    htag (fun b hb => by rw [List.head?_cons, Option.some.injEq] at hb; subst hb; decide)
  have e3 := takeWhile_all_head isPySpace (s1 :: w1r)
    ((b1 :: t1r) ++ ((s2 :: w2r) ++ ((b2 :: t2r) ++ ((s3 :: w3r) ++ dc :: drest))))
    hw1 (fun b hb => by
      rw [List.cons_append, List.head?_cons, Option.some.injEq] at hb
      subst hb
      exact ht1 b1 (List.mem_cons_self b1 t1r))
  have e4 := dropWhile_all_head isPySpace (s1 :: w1r)
    ((b1 :: t1r) ++ ((s2 :: w2r) ++ ((b2 :: t2r) ++ ((s3 :: w3r) ++ dc :: drest))))
    hw1 (fun b hb => by
      rw [List.cons_append, List.head?_cons, Option.some.injEq] at hb
      subst hb
      exact ht1 b1 (List.mem_cons_self b1 t1r))
  have e5 := takeWhile_all_head (fun c => !(isPySpace c)) (b1 :: t1r)
    ((s2 :: w2r) ++ ((b2 :: t2r) ++ ((s3 :: w3r) ++ dc :: drest)))
    (fun c hc => by simp [ht1 c hc])
    (fun b hb => by
      rw [List.cons_append, List.head?_cons, Option.some.injEq] at hb
      subst hb
      simp [hw2 s2 (List.mem_cons_self s2 w2r)])
  have e6 := dropWhile_all_head (fun c => !(isPySpace c)) (b1 :: t1r)
    ((s2 :: w2r) ++ ((b2 :: t2r) ++ ((s3 :: w3r) ++ dc :: drest)))
    (fun c hc => by simp [ht1 c hc])
    (fun b hb => by
      rw [List.cons_append, List.head?_cons, Option.some.injEq] at hb
      subst hb
      simp [hw2 s2 (List.mem_cons_self s2 w2r)])
  have e7 := takeWhile_all_head isPySpace (s2 :: w2r)
    ((b2 :: t2r) ++ ((s3 :: w3r) ++ dc :: drest))
    hw2 (fun b hb => by
      rw [List.cons_append, List.head?_cons, Option.some.injEq] at hb
      subst hb
      exact ht2 b2 (List.mem_cons_self b2 t2r))
  have e8 := dropWhile_all_head isPySpace (s2 :: w2r)
    ((b2 :: t2r) ++ ((s3 :: w3r) ++ dc :: drest))
    hw2 (fun b hb => by
      rw [List.cons_append, List.head?_cons, Option.some.injEq] at hb
      subst hb
      exact ht2 b2 (List.mem_cons_self b2 t2r))
  have e9 := takeWhile_all_head (fun c => !(isPySpace c)) (b2 :: t2r)
    ((s3 :: w3r) ++ dc :: drest)
    (fun c hc => by simp [ht2 c hc])
    (fun b hb => by
      rw [List.cons_append, List.head?_cons, Option.some.injEq] at hb
      subst hb
      simp [hw3 s3 (List.mem_cons_self s3 w3r)])
  have e10 := dropWhile_all_head (fun c => !(isPySpace c)) (b2 :: t2r)
    ((s3 :: w3r) ++ dc :: drest)
    (fun c hc => by simp [ht2 c hc])
    (fun b hb => by
      rw [List.cons_append, List.head?_cons, Option.some.injEq] at hb
      subst hb
      simp [hw3 s3 (List.mem_cons_self s3 w3r)])
  have e11 := takeWhile_all_head isPySpace (s3 :: w3r) (dc :: drest)
    hw3 (fun b hb => by rw [List.head?_cons, Option.some.injEq] at hb; subst hb; exact hdc)
  have e12 := dropWhile_all_head isPySpace (s3 :: w3r) (dc :: drest)
    hw3 (fun b hb => by rw [List.head?_cons, Option.some.injEq] at hb; subst hb; exact hdc)
  simp only [tryTagMatch, e1, e2, e3, e4, e5, e6, e7, e8, e9, e10, e11, e12,
    List.isEmpty_cons, Bool.false_eq_true, if_false]

/-- C5 (counterexample): the claim allows optional leading whitespace before
the bracketed tag, but the source's anchored match has no leading-whitespace
allowance: a message with one leading space renders as a Plain line (the
whole message after the time), not as a Tagged line. -/
theorem c5_counterexample :
    format_log_event ⟨0, some " [ERROR] a b boom", none⟩
      = some "00:00:00  [ERROR] a b boom\n"
    ∧ ("00:00:00  [ERROR] a b boom\n" : String) ≠ "00:00:00 ERROR   boom\n" := by
  exact ⟨rfl, by decide⟩

/-- C5 (amended): for every message consisting of a bracketed all-uppercase
tag at the very start (no leading whitespace permitted), whitespace, two
whitespace-delimited tokens, whitespace, and free-form detail beginning with
a non-whitespace character (the detail may contain line breaks),
`format_log_event` renders the Tagged line `<time> <level padded to width 7>
<detail>`, with a trailing newline appended when the detail does not already
end with one. -/
theorem c5_amended_tagged_render
    (ts : Int) (tag w1 t1 w2 t2 w3 drest : List Char) (dc : Char)
    (htagne : tag ≠ []) (htag : ∀ c ∈ tag, isUpperAZ c = true)
    (hw1ne : w1 ≠ []) (hw1 : ∀ c ∈ w1, isPySpace c = true)
    (ht1ne : t1 ≠ []) (ht1 : ∀ c ∈ t1, isPySpace c = false)
    (hw2ne : w2 ≠ []) (hw2 : ∀ c ∈ w2, isPySpace c = true)
    (ht2ne : t2 ≠ []) (ht2 : ∀ c ∈ t2, isPySpace c = false)
    (hw3ne : w3 ≠ []) (hw3 : ∀ c ∈ w3, isPySpace c = true)
    (hdc : isPySpace dc = false) :
    formatLogEventCore ts
        ('[' :: (tag ++ ']' :: (w1 ++ (t1 ++ (w2 ++ (t2 ++ (w3 ++ dc :: drest)))))))
      = (if (dc :: drest).getLast? = some '\n'
          then (formatTime ts).data
            ++ ' ' :: (tag ++ List.replicate (7 - tag.length) ' ') ++ ' ' :: dc :: drest
          else (formatTime ts).data
            ++ ' ' :: (tag ++ List.replicate (7 - tag.length) ' ') ++ ' ' :: dc :: drest
            ++ ['\n']) := by
  have hmatch := tryTagMatch_canonical tag w1 t1 w2 t2 w3 drest dc
    htagne htag hw1ne hw1 ht1ne ht1 hw2ne hw2 ht2ne ht2 hw3ne hw3 hdc
  have hS : startsWithML
      ('[' :: (tag ++ ']' :: (w1 ++ (t1 ++ (w2 ++ (t2 ++ (w3 ++ dc :: drest)))))))
      "START".data = false :=
    startsWithML_cons_ne _ _ (by decide)
  have hE : startsWithML
      ('[' :: (tag ++ ']' :: (w1 ++ (t1 ++ (w2 ++ (t2 ++ (w3 ++ dc :: drest)))))))
      "END".data = false :=
    startsWithML_cons_ne _ _ (by decide)
  have hR : startsWithML
      ('[' :: (tag ++ ']' :: (w1 ++ (t1 ++ (w2 ++ (t2 ++ (w3 ++ dc :: drest)))))))
      "REPORT".data = false :=
    startsWithML_cons_ne _ _ (by decide)
  have hlast : ((formatTime ts).data
      ++ ' ' :: (tag ++ List.replicate (7 - tag.length) ' ')
      ++ ' ' :: dc :: drest).getLast?
      = (dc :: drest).getLast? := by
    rw [getLast?_append_ne_nil (by simp), List.getLast?_cons_cons]
  simp only [formatLogEventCore, hS, hE, hR, Bool.false_eq_true, if_false, hmatch,
    ensureNL, padTo7]
  rw [hlast]

/-- Witness for the amended C5: the message `[ERROR] a b boom` at time 0
renders as `00:00:00 ERROR   boom` plus newline. -/
theorem c5_amended_witness :
    formatLogEventCore 0
        ('[' :: ("ERROR".data ++ ']' :: ([' '] ++ (['a'] ++ ([' ']
          ++ (['b'] ++ ([' '] ++ 'b' :: "oom".data)))))))
      = (if (('b' :: "oom".data) : List Char).getLast? = some '\n'
          then (formatTime 0).data
            ++ ' ' :: ("ERROR".data ++ List.replicate (7 - "ERROR".data.length) ' ')
            ++ ' ' :: 'b' :: "oom".data
          else (formatTime 0).data
            ++ ' ' :: ("ERROR".data ++ List.replicate (7 - "ERROR".data.length) ' ')
            ++ ' ' :: 'b' :: "oom".data
            ++ ['\n']) :=
  c5_amended_tagged_render 0 "ERROR".data [' '] ['a'] [' '] ['b'] [' '] "oom".data 'b'
    (by decide) (by decide) (by decide) (by decide) (by decide) (by decide)
    (by decide) (by decide) (by decide) (by decide) (by decide) (by decide)
    (by decide)
